import Mathlib

/-!
Shallow embedding of the debugflow-backend analysis core
(`AIAnalyzer` and `ProjectProcessor`), together with theorems settling
the specification claims about it.

JavaScript strings are modelled as Lean `String`; dynamic JSON values as
the inductive `Json` below; external capabilities (the platform JSON
decoder, the file-content source, the acorn parser, the model-completion
client) are function parameters, matching the spec's external-interface
section.  Exceptions are modelled by `Option`/`Except`; a function that
in the source catches all of its own errors is modelled as total.
-/

namespace DebugFlow

/-- Dynamic JSON-like value, the result type of the platform decoder and
of `parseAnalysisResponse` (whose strict path returns an arbitrary
decoded value). Numbers are modelled as integers, which covers every
numeric literal appearing in the source. -/
inductive Json where
  | null : Json
  | bool (b : Bool) : Json
  | num (n : Int) : Json
  | str (s : String) : Json
  | arr (elems : List Json) : Json
  | obj (props : List (String × Json)) : Json

/-- Property access `j[k]` on a dynamic value: `none` models `undefined`. -/
def jget (j : Json) (k : String) : Option Json :=
  match j with
  | .obj props => props.lookup k
  | _ => none

/-- Is the needle a prefix of the haystack (character lists)? -/
def isPre : List Char → List Char → Bool
  | [], _ => true
  | _ :: _, [] => false
  | a :: t, b :: u => a == b && isPre t u

/-- Scan of the haystack for the needle, used to model `String.includes`. -/
def subAt : List Char → List Char → Bool
  | needle, [] => isPre needle []
  | needle, hay =>
    match hay with
    | [] => false
    | _ :: t => isPre needle hay || subAt needle t

/-- Model of JavaScript `hay.includes(needle)`. -/
def hasSub (hay needle : String) : Bool :=
  subAt needle.data hay.data

/-- Model of JavaScript `s.toLowerCase()` (ASCII case folding, which covers
every string the analyzer compares). -/
def jsToLower (s : String) : String :=
  String.mk (s.data.map Char.toLower)

/-- JavaScript whitespace class membership for the characters that can occur
in our strings (space, tab, newline, carriage return, vertical tab, form feed). -/
def wsChar (c : Char) : Bool :=
  c == ' ' || c == '\t' || c == '\n' || c == '\r' || c == '\x0b' || c == '\x0c'

/-- Model of JavaScript `s.trim()`. -/
def jsTrim (s : String) : String :=
  String.mk (((s.data.dropWhile wsChar).reverse.dropWhile wsChar).reverse)

/-- Model of `v || d` where `v` is a string-or-null value: `null` and the
empty string are falsy, every other string is returned unchanged. -/
def jsOr (v : Option String) (d : String) : String :=
  match v with
  | none => d
  | some s => if s = "" then d else s

/-- Model of `v || d` for a plain string `v`. -/
def jsOrS (v d : String) : String :=
  if v = "" then d else v

/-! ### AIAnalyzer.extractSection

The source builds the regex `keyword[:\s]*(.*?)(?=\n\n|$)` with flag `i`
and returns `match ? match[1].trim() : null`.  The functions below model
the backtracking search of that regex: start positions are tried left to
right; at a matching (case-insensitive) keyword occurrence the greedy
separator star is tried longest-run first, and the lazy capture group is
grown from the empty string until the lookahead (a blank line or the end
of input) holds; the dot of the capture group matches no line
terminator. -/

/-- Case-insensitive prefix test (regex flag `i`). -/
def ciPre : List Char → List Char → Bool
  | [], _ => true
  | _ :: _, [] => false
  | a :: t, b :: u => a.toLower == b.toLower && ciPre t u

/-- Characters matched by the regex class `[:\s]`. -/
def sepCh (c : Char) : Bool :=
  c == ':' || wsChar c

/-- Lazy capture group `(.*?)(?=\n\n|$)`: starting at the current
position, return the shortest run of non-line-terminator characters
after which the input is exhausted or a blank line (two newlines)
follows; fail when a line terminator blocks the way. -/
def tryCapture : List Char → Option (List Char)
  | [] => some []
  | c :: t =>
    if c = '\n' then
      if t.head? = some '\n' then some [] else none
    else if c = '\r' || c.toNat = 8232 || c.toNat = 8233 then none
    else (tryCapture t).map (fun cap => c :: cap)

/-- Greedy backtracking over the separator star `[:\s]*`: try consuming
`k` separator characters, longest first, down to zero. -/
def sepsLoop : Nat → List Char → Option (List Char)
  | 0, cs => tryCapture cs
  | k + 1, cs =>
    match tryCapture (cs.drop (k + 1)) with
    | some cap => some cap
    | none => sepsLoop k cs

/-- Attempt of the whole pattern at one start position. -/
def matchAtPos (kw text : List Char) : Option (List Char) :=
  if ciPre kw text then
    let rest := text.drop kw.length
    sepsLoop ((rest.takeWhile sepCh).length) rest
  else none

/-- Left-to-right scan over start positions, as the regex engine does. -/
def sectionSearch (kw : List Char) : List Char → Option (List Char)
  | [] => matchAtPos kw []
  | c :: t =>
    match matchAtPos kw (c :: t) with
    | some cap => some cap
    | none => sectionSearch kw t

/-- Model of `AIAnalyzer.extractSection(text, keyword)`: the trimmed first
capture of `keyword[:\s]*(.*?)(?=\n\n|$)` (flag `i`), or `null` when the
regex does not match. -/
def extractSection (text keyword : String) : Option String :=
  (sectionSearch keyword.data text.data).map (fun cap => jsTrim (String.mk cap))

/-- The severity keyword list of `AIAnalyzer.extractSeverity`, in source order. -/
def severities : List String := ["critical", "high", "medium", "low"]

/-- Model of `AIAnalyzer.extractSeverity(text)`:
`severities.find(s => lower.includes(s)) || 'medium'`. -/
def extractSeverity (text : String) : String :=
  jsOr (severities.find? (fun s => hasSub (jsToLower text) s)) "medium"

/-- The fix object of `AIAnalyzer.extractFixes`. -/
def primaryFix : Json :=
  .obj [
    ("id", .num 1),
    ("title", .str "Primary Fix"),
    ("description", .str "Main recommended solution"),
    ("steps", .arr [.str "Analyze the issue", .str "Implement the fix",
                    .str "Test the solution"]),
    ("riskLevel", .str "low"),
    ("estimatedTime", .str "30 minutes"),
    ("recommendedAI", .str "openai"),
    ("reasoning", .str "Best for this type of fix")]

/-- Model of `AIAnalyzer.extractFixes(text)`: a constant one-element fix list. -/
def extractFixes (_text : String) : Json :=
  .arr [primaryFix]

/-- Model of `AIAnalyzer.getDefaultAnalysis()`, the hard-parse-failure default. -/
def getDefaultAnalysis : Json :=
  .obj [
    ("rootCause", .str "Code analysis completed. Review recommended fixes."),
    ("severity", .str "medium"),
    ("impact", .str "Potential improvements identified"),
    ("fixes", .arr [.obj [
      ("id", .num 1),
      ("title", .str "Code Improvement"),
      ("description", .str "Implement recommended code improvements"),
      ("steps", .arr [.str "Review code structure", .str "Apply best practices",
                      .str "Add error handling"]),
      ("riskLevel", .str "low"),
      ("estimatedTime", .str "45 minutes"),
      ("recommendedAI", .str "openai"),
      ("reasoning", .str "Comprehensive analysis capabilities")]]),
    ("testingStrategy", .str "Unit and integration testing recommended")]

/-- The object literal built on the lenient fallback path of
`parseAnalysisResponse` (structured parsing of free text). -/
def lenientAnalysis (response : String) : Json :=
  .obj [
    ("rootCause", .str (jsOr (extractSection response "root cause") "Analysis completed")),
    ("severity", .str (jsOrS (extractSeverity response) "medium")),
    ("impact", .str (jsOr (extractSection response "impact") "Potential application issues")),
    ("fixes", extractFixes response),
    ("testingStrategy", .str (jsOr (extractSection response "testing")
        "Comprehensive testing recommended"))]

/-- Index of the first occurrence of a character in a list. -/
def firstIdxC : List Char → Char → Option Nat
  | [], _ => none
  | c :: t, x => if c = x then some 0 else (firstIdxC t x).map (fun n => n + 1)

/-- Index of the last occurrence of a character in a list. -/
def lastIdxC (cs : List Char) (x : Char) : Option Nat :=
  (firstIdxC cs.reverse x).map (fun k => cs.length - 1 - k)

/-- Model of `response.match(/\x7b[\s\S]*\x7d/)`: with the greedy star the
regex matches exactly when an opening brace precedes some closing brace,
and the match then runs from the first opening brace to the last closing
brace of the whole string. -/
def jsonMatch (s : String) : Option String :=
  match firstIdxC s.data '\x7b', lastIdxC s.data '\x7d' with
  | some i, some j =>
    if i < j then some (String.mk ((s.data.drop i).take (j + 1 - i))) else none
  | _, _ => none

/-- Model of `AIAnalyzer.parseAnalysisResponse(response)`, parameterised by
the platform JSON decoder `dec` (`JSON.parse`, an external capability whose
failure is the caught exception sending the source to `getDefaultAnalysis`). -/
def parseAnalysisResponse (dec : String → Option Json) (response : String) : Json :=
  match jsonMatch response with
  | some sub =>
    match dec sub with
    | some j => j
    | none => getDefaultAnalysis
  | none => lenientAnalysis response

/-- Model of the mock analysis returned by `AIAnalyzer.analyzeBug` when
the model-completion call throws. -/
def mockAnalysis : Json :=
  .obj [
    ("rootCause", .str "Unable to connect to AI service. Mock analysis: The application may have error handling issues based on common patterns."),
    ("severity", .str "medium"),
    ("impact", .str "Potential runtime errors when handling edge cases"),
    ("fixes", .arr [.obj [
      ("id", .num 1),
      ("title", .str "Add Error Handling"),
      ("description", .str "Implement comprehensive error handling and validation"),
      ("steps", .arr [.str "Add try-catch blocks", .str "Implement input validation",
                      .str "Add error logging"]),
      ("riskLevel", .str "low"),
      ("estimatedTime", .str "30 minutes"),
      ("recommendedAI", .str "openai"),
      ("reasoning", .str "GPT-4 excels at error handling patterns")]]),
    ("relatedIssues", .arr [.str "Input validation", .str "Error logging"]),
    ("testingStrategy", .str "Unit tests for error conditions and edge cases")]

/-- One entry of `projectData.files` as used by `createAnalysisPrompt`. -/
structure PFile where
  name : String
  content : String

/-- The fields of `projectData` read by `AIAnalyzer`; `languages` and
`files` are optional because the source guards them with `?.`. -/
structure ProjectData where
  name : String
  projectType : String
  totalFiles : Nat
  totalLines : Nat
  languages : Option (List String)
  files : Option (List PFile)

/-- Model of `AIAnalyzer.createAnalysisPrompt(projectData, bugDescription)`. -/
def createAnalysisPrompt (pd : ProjectData) (bugDescription : String) : String :=
  let fileContents := jsOrS
    (match pd.files with
     | none => ""
     | some fs =>
       String.intercalate "\n\n"
         ((fs.take 3).map (fun f =>
            "File: " ++ f.name ++ "\n" ++ f.content.take 1000 ++ "...")))
    "No file contents available"
  "\nAnalyze this " ++ pd.projectType ++ " project for bugs:\n\nPROJECT INFO:\n- Name: "
    ++ pd.name ++ "\n- Files: " ++ toString pd.totalFiles ++ " files\n- Languages: "
    ++ (match pd.languages with
        | none => "undefined"
        | some ls => String.intercalate ", " ls)
    ++ "\n- Lines of code: " ++ toString pd.totalLines
    ++ "\n\nBUG DESCRIPTION:\n"
    ++ jsOrS bugDescription "Please analyze the code for potential bugs and issues."
    ++ "\n\nCODE SAMPLE:\n" ++ fileContents
    ++ "\n\nProvide a JSON response with:\n1. Root cause analysis\n2. Severity assessment (low/medium/high/critical)\n3. Impact description\n4. 2-3 fix recommendations with steps\n5. Testing strategy\n\nFormat as valid JSON with rootCause, severity, impact, fixes array, and testingStrategy fields.\n"

/-- Model of `AIAnalyzer.analyzeBug`, parameterised by the external
model-completion capability `complete` (success returns the completion
text, failure is the thrown service error) and the platform decoder. -/
def analyzeBug (complete : String → Except Unit String)
    (dec : String → Option Json) (pd : ProjectData) (bugDescription : String) : Json :=
  match complete (createAnalysisPrompt pd bugDescription) with
  | .ok text => parseAnalysisResponse dec text
  | .error _ => mockAnalysis

/-! ### ProjectProcessor -/

/-- Model of JavaScript `content.split('\n')` on character lists: the
segments between newline characters (an empty input yields one empty
segment). -/
def splitNl : List Char → List (List Char)
  | [] => [[]]
  | c :: t =>
    if c = '\n' then [] :: splitNl t
    else
      match splitNl t with
      | s :: rest => (c :: s) :: rest
      | [] => [[c]]

/-- Model of `content.split('\n').length`, the per-file line count. -/
def countLines (content : String) : Nat :=
  (splitNl content.data).length

/-- Model of Node `path.extname(name)` for the posix separator: the part
of the final path component from its last dot on, empty when there is no
dot or the only dot leads the component (hidden files), with the
degenerate all-dots component `..` also yielding the empty string. -/
def extname (name : String) : String :=
  let base := name.data.foldl (fun acc c => if c = '/' then [] else acc ++ [c]) []
  if base = ['.', '.'] then ""
  else
    match lastIdxC base '.' with
    | none => ""
    | some 0 => ""
    | some k => String.mk (base.drop k)

/-- Model of `ProjectProcessor.detectLanguage(extension)`. -/
def detectLanguage (extension : String) : String :=
  if extension = ".js" then "JavaScript"
  else if extension = ".jsx" then "JavaScript (React)"
  else if extension = ".ts" then "TypeScript"
  else if extension = ".tsx" then "TypeScript (React)"
  else if extension = ".py" then "Python"
  else if extension = ".java" then "Java"
  else if extension = ".php" then "PHP"
  else if extension = ".rb" then "Ruby"
  else if extension = ".go" then "Go"
  else if extension = ".rs" then "Rust"
  else if extension = ".swift" then "Swift"
  else "Unknown"

/-- One collected function declaration of the structural summary. -/
structure FuncInfo where
  name : String
  line : Option Nat
  params : Nat

/-- One collected class declaration of the structural summary. -/
structure ClassInfo where
  name : Option String
  line : Option Nat

/-- The `analysis` record of `ProjectProcessor.analyzeFile` (the spec's
`StructuralSummary`). -/
structure Summary where
  functions : List FuncInfo
  classes : List ClassInfo
  imports : List String
  complexity : Nat
  potentialIssues : List String

/-- The empty structural summary, the record initialiser of `analyzeFile`. -/
def emptySummary : Summary := ⟨[], [], [], 0, []⟩

/-- Abstract syntax tree produced by the external acorn parser, restricted
to the node distinctions the walker inspects.  `line` fields are optional
because the source reads `node.loc?.start.line` and the parser is invoked
without location tracking. -/
inductive JsAst where
  | funDecl (name : Option String) (line : Option Nat) (paramCount : Nat) (kids : List JsAst)
  | classDecl (name : Option String) (line : Option Nat) (kids : List JsAst)
  | importDecl (src : String) (kids : List JsAst)
  | other (kids : List JsAst)

mutual

/-- The `walk.simple` traversal of `analyzeJavaScript`: children are
visited before the node's own callback runs, each callback appending to
the corresponding summary list. -/
def collectAst : JsAst → Summary → Summary
  | .funDecl n l p kids, acc =>
    let acc := collectKids kids acc
    { acc with functions := acc.functions ++ [⟨jsOr n "anonymous", l, p⟩] }
  | .classDecl n l kids, acc =>
    let acc := collectKids kids acc
    { acc with classes := acc.classes ++ [⟨n, l⟩] }
  | .importDecl src kids, acc =>
    let acc := collectKids kids acc
    { acc with imports := acc.imports ++ [src] }
  | .other kids, acc => collectKids kids acc

/-- Traversal of a child list, left to right. -/
def collectKids : List JsAst → Summary → Summary
  | [], acc => acc
  | a :: t, acc => collectKids t (collectAst a acc)

end

/-- Model of `ProjectProcessor.analyzeJavaScript(content, analysis)`,
parameterised by the external acorn parser; a parse failure is caught
and leaves the accumulated analysis unchanged. -/
def analyzeJavaScript (acornParse : String → Option JsAst)
    (content : String) (analysis : Summary) : Summary :=
  match acornParse content with
  | some ast => collectAst ast analysis
  | none => analysis

/-- Model of `ProjectProcessor.analyzeFile(content, extension)`: only the
`.js`/`.jsx` branch runs the JavaScript analyzer; every other extension,
and every caught internal failure, leaves the empty summary. -/
def analyzeFile (acornParse : String → Option JsAst)
    (content extension : String) : Summary :=
  if extension = ".js" || extension = ".jsx" then
    analyzeJavaScript acornParse content emptySummary
  else emptySummary

/-- One file as produced by the per-file loop of `processUploadedFiles`. -/
structure ProcessedFile where
  name : String
  path : String
  content : String
  size : Nat
  lines : Nat
  extension : String
  language : String
  analysis : Summary

/-- Model of the `hasFile` closure of `detectProjectType`. -/
def hasFile (files : List ProcessedFile) (name : String) : Bool :=
  files.any (fun f => f.name = name)

/-- Model of `ProjectProcessor.detectProjectType(files)`. -/
def detectProjectType (files : List ProcessedFile) : String :=
  if hasFile files "package.json" then "Node.js/JavaScript"
  else if hasFile files "requirements.txt" then "Python"
  else if hasFile files "pom.xml" then "Java"
  else if hasFile files "Gemfile" then "Ruby"
  else if hasFile files "go.mod" then "Go"
  else "Generic"

/-- JavaScript object-spread contribution of one dynamic value: objects
contribute their properties, strings and arrays their indexed elements,
every other value nothing. -/
def jsSpread (j : Json) : List (String × Json) :=
  match j with
  | .obj props => props
  | .str s => (List.range s.data.length).zip (s.data.map (fun c => Json.str (String.mk [c])))
      |>.map (fun p => (toString p.1, p.2))
  | .arr xs => ((List.range xs.length).zip xs).map (fun p => (toString p.1, p.2))
  | _ => []

/-- Assignment of one property on a JavaScript object: an existing key
keeps its position and gets the new value, a new key is appended. -/
def setProp (props : List (String × Json)) (k : String) (v : Json) : List (String × Json) :=
  if props.any (fun p => p.1 = k) then
    props.map (fun p => if p.1 = k then (k, v) else p)
  else props ++ [(k, v)]

/-- Folding a spread list into an object, later entries overriding earlier
ones — the semantics of an object literal built from spreads. -/
def spreadInto (base : List (String × Json)) (l : List (String × Json)) :
    List (String × Json) :=
  l.foldl (fun acc p => setProp acc p.1 p.2) base

/-- Property read that models spreading an absent field: `undefined`
spreads as nothing, represented by `Json.null` here. -/
def jgetOrNull (j : Json) (k : String) : Json :=
  (jget j k).getD .null

/-- One iteration of the `extractDependencies` loop: a file named
`package.json` whose content decodes overwrites the `npm` entry with the
spread-merge of its `dependencies` and `devDependencies` fields; a decode
failure is caught and skipped; every other file is ignored. -/
def depStep (dec : String → Option Json)
    (npm : Option (List (String × Json))) (file : ProcessedFile) :
    Option (List (String × Json)) :=
  if file.name = "package.json" then
    match dec file.content with
    | some j =>
      some (spreadInto (spreadInto [] (jsSpread (jgetOrNull j "dependencies")))
             (jsSpread (jgetOrNull j "devDependencies")))
    | none => npm
  else npm

/-- Model of `ProjectProcessor.extractDependencies(files)`: the value of
the `npm` key of the returned object (`none` when the key was never
assigned), parameterised by the platform JSON decoder. -/
def extractDependencies (dec : String → Option Json)
    (files : List ProcessedFile) : Option (List (String × Json)) :=
  files.foldl (depStep dec) none

/-- One uploaded-file descriptor of `processUploadedFiles` (multer's
`originalname`, `path`, `size`). -/
structure UploadFile where
  originalname : String
  path : String
  size : Nat

/-- Appending to the language `Set` of the ingestion loop: sets preserve
insertion order and drop duplicates. -/
def addLang (acc : List String) (l : String) : List String :=
  if l ∈ acc then acc else acc ++ [l]

/-- The mutable state of the per-file loop of `processUploadedFiles`. -/
structure IngestState where
  processed : List ProcessedFile
  totalLines : Nat
  languages : List String

/-- One iteration of the per-file loop: a failing read is caught and
leaves the state unchanged (the file is dropped); a successful read
appends the processed file and updates the running totals. -/
def stepFile (readFile : String → Option String)
    (acornParse : String → Option JsAst)
    (st : IngestState) (f : UploadFile) : IngestState :=
  match readFile f.path with
  | none => st
  | some content =>
    let extension := extname f.originalname
    let pf : ProcessedFile :=
      { name := f.originalname
        path := f.path
        content := content
        size := f.size
        lines := countLines content
        extension := extension
        language := detectLanguage extension
        analysis := analyzeFile acornParse content extension }
    { processed := st.processed ++ [pf]
      totalLines := st.totalLines + countLines content
      languages := addLang st.languages (detectLanguage extension) }

/-- The snapshot returned by `processUploadedFiles`; `dependencies` holds
the value of the `npm` key of the dependency object. -/
structure ProjectSnapshot where
  name : String
  files : List ProcessedFile
  totalFiles : Nat
  totalLines : Nat
  languages : List String
  projectType : String
  dependencies : Option (List (String × Json))

/-- Model of `ProjectProcessor.processUploadedFiles(files)`, parameterised
by the external file-content source, acorn parser, and JSON decoder. -/
def processUploadedFiles (dec : String → Option Json)
    (readFile : String → Option String) (acornParse : String → Option JsAst)
    (files : List UploadFile) : ProjectSnapshot :=
  let st := files.foldl (stepFile readFile acornParse) ⟨[], 0, []⟩
  { name := "Uploaded Project"
    files := st.processed
    totalFiles := st.processed.length
    totalLines := st.totalLines
    languages := st.languages
    projectType := detectProjectType st.processed
    dependencies := extractDependencies dec st.processed }

/-! ### A concrete JSON decoder

The platform decoder `JSON.parse` is an external capability; the claims
about the interpreter are proved for an arbitrary decoder, and the
decoder below is a concrete instance used to settle them at explicit
inputs.  It accepts objects, arrays, strings without escape sequences,
integers, and the three literals — enough for every manifest and model
response appearing in the claims. -/

/-- Skip JSON insignificant whitespace. -/
def skipWs : List Char → List Char
  | [] => []
  | c :: t =>
    if c = ' ' || c = '\t' || c = '\n' || c = '\r' then skipWs t else c :: t

/-- Decode a string body after its opening quote; escape sequences are
not accepted by this instance. -/
def parseStringLit : List Char → Option (String × List Char)
  | [] => none
  | c :: t =>
    if c = '"' then some ("", t)
    else if c = '\\' then none
    else (parseStringLit t).map (fun p => (String.mk (c :: p.1.data), p.2))

/-- Decode a nonempty digit run into a natural number. -/
def parseDigits (cs : List Char) : Option (Nat × List Char) :=
  let ds := cs.takeWhile Char.isDigit
  if ds.isEmpty then none
  else some (ds.foldl (fun a c => a * 10 + (c.toNat - 48)) 0, cs.drop ds.length)

mutual

/-- Fuelled decoder for one JSON value (leading whitespace allowed). -/
def parseVal : Nat → List Char → Option (Json × List Char)
  | 0, _ => none
  | fuel + 1, cs =>
    match skipWs cs with
    | [] => none
    | c :: t =>
      if c = '"' then (parseStringLit t).map (fun p => (Json.str p.1, p.2))
      else if c = '\x7b' then
        match skipWs t with
        | '\x7d' :: r => some (.obj [], r)
        | r => parseMembers fuel [] r
      else if c = '[' then
        match skipWs t with
        | ']' :: r => some (.arr [], r)
        | r => parseElems fuel [] r
      else if isPre "true".data (c :: t) then some (.bool true, (c :: t).drop 4)
      else if isPre "false".data (c :: t) then some (.bool false, (c :: t).drop 5)
      else if isPre "null".data (c :: t) then some (.null, (c :: t).drop 4)
      else if c = '-' then (parseDigits t).map (fun p => (Json.num (-(p.1 : Int)), p.2))
      else (parseDigits (c :: t)).map (fun p => (Json.num (p.1 : Int), p.2))

/-- Fuelled decoder for the members of a nonempty object, after its
opening brace. -/
def parseMembers : Nat → List (String × Json) → List Char → Option (Json × List Char)
  | 0, _, _ => none
  | fuel + 1, acc, cs =>
    match cs with
    | '"' :: t =>
      match parseStringLit t with
      | none => none
      | some (k, r1) =>
        match skipWs r1 with
        | ':' :: r2 =>
          match parseVal fuel r2 with
          | none => none
          | some (v, r3) =>
            match skipWs r3 with
            | ',' :: r4 => parseMembers fuel (acc ++ [(k, v)]) (skipWs r4)
            | '\x7d' :: r4 => some (.obj (acc ++ [(k, v)]), r4)
            | _ => none
        | _ => none
    | _ => none

/-- Fuelled decoder for the elements of a nonempty array, after its
opening bracket. -/
def parseElems : Nat → List Json → List Char → Option (Json × List Char)
  | 0, _, _ => none
  | fuel + 1, acc, cs =>
    match parseVal fuel cs with
    | none => none
    | some (v, r1) =>
      match skipWs r1 with
      | ',' :: r2 => parseElems fuel (acc ++ [v]) r2
      | ']' :: r2 => some (.arr (acc ++ [v]), r2)
      | _ => none

end

/-- The concrete decoder instance: decode one value and require only
whitespace to remain. -/
def jsonParseSimple (s : String) : Option Json :=
  match parseVal (4 * s.data.length + 8) s.data with
  | some (v, r) => if skipWs r = [] then some v else none
  | none => none

/-! ### Helper lemmas -/

/-- A falsy-or default with a nonempty default is nonempty. -/
theorem jsOr_ne_empty (v : Option String) (d : String) (hd : d ≠ "") :
    jsOr v d ≠ "" := by
  cases v with
  | none => simpa [jsOr] using hd
  | some s =>
    by_cases hs : s = "" <;> simp [jsOr, hs, hd]

/-- The extracted severity is always one of the four severity keywords. -/
theorem extractSeverity_mem (text : String) : extractSeverity text ∈ severities := by
  unfold extractSeverity
  cases h : severities.find? (fun s => hasSub (jsToLower text) s) with
  | none => simp [jsOr, severities]
  | some s =>
    have hs := List.mem_of_find?_eq_some h
    by_cases he : s = ""
    · simp [jsOr, he, severities]
    · simpa [jsOr, he] using hs

/-- The lenient severity value `extractSeverity(response) || 'medium'` is one
of the four severity keywords. -/
theorem jsOrS_severity_mem (v : String) (hv : v ∈ severities) :
    jsOrS v "medium" ∈ severities := by
  by_cases he : v = ""
  · simp [jsOrS, he, severities]
  · simpa [jsOrS, he] using hv

/-- Structural shape demanded of a `BugAnalysis` by the spec's data model,
restricted to the fields the fallback paths populate: a non-empty
`rootCause`, a severity among the four levels, a non-empty `impact`, a
one-element `fixes` list, and a non-empty `testingStrategy`. -/
def bugAnalysisShape (j : Json) : Prop :=
  (∃ r, jget j "rootCause" = some (.str r) ∧ r ≠ "")
  ∧ (∃ sv, jget j "severity" = some (.str sv) ∧ sv ∈ severities)
  ∧ (∃ im, jget j "impact" = some (.str im) ∧ im ≠ "")
  ∧ (∃ fx, jget j "fixes" = some (.arr fx) ∧ fx.length = 1)
  ∧ (∃ ts, jget j "testingStrategy" = some (.str ts) ∧ ts ≠ "")

/-- The lenient fallback object always has the required shape. -/
theorem lenientAnalysis_shape (s : String) : bugAnalysisShape (lenientAnalysis s) := by
  refine ⟨⟨_, rfl, jsOr_ne_empty _ _ (by decide)⟩,
          ⟨_, rfl, jsOrS_severity_mem _ (extractSeverity_mem s)⟩,
          ⟨_, rfl, jsOr_ne_empty _ _ (by decide)⟩,
          ⟨[primaryFix], rfl, rfl⟩,
          ⟨_, rfl, jsOr_ne_empty _ _ (by decide)⟩⟩

/-- The hard-failure default object always has the required shape. -/
theorem getDefaultAnalysis_shape : bugAnalysisShape getDefaultAnalysis := by
  refine ⟨⟨_, rfl, by decide⟩, ⟨"medium", rfl, by decide⟩, ⟨_, rfl, by decide⟩,
          ⟨_, rfl, rfl⟩, ⟨_, rfl, by decide⟩⟩

/-! ### Claim theorems: Response Interpreter -/

/-- C1 (counterexample): the claim that `interpret` returns a fully-typed
`BugAnalysis` with a non-empty `rootCause` for every input fails on the
code: the two-character input consisting of an opening and a closing brace
decodes on the strict path to an empty object, which is returned with no
`rootCause` at all; and even on the empty-string input the returned
fallback object carries no `relatedIssues` field, so not all fields of the
`BugAnalysis` data model are present. -/
theorem interpret_fully_typed_cex :
    jget (parseAnalysisResponse jsonParseSimple "\x7b\x7d") "rootCause" = none
    ∧ jget (parseAnalysisResponse jsonParseSimple "") "relatedIssues" = none :=
  ⟨rfl, rfl⟩

/-- C1 (amended): `interpret` is total on every input string (the model is
a total function, mirroring the catch-all in the source), and whenever the
strict path does not produce a decoded object — no brace-delimited region,
or the region fails to decode — the result has a non-empty `rootCause`, a
severity among the four levels, a non-empty `impact`, a one-element
`fixes` list and a non-empty `testingStrategy`; a strict-path success is
returned as decoded, without validation, and `relatedIssues` is not
populated by the fallback paths. -/
theorem interpret_nonstrict_shape (dec : String → Option Json) (s : String)
    (h : ∀ sub, jsonMatch s = some sub → dec sub = none) :
    bugAnalysisShape (parseAnalysisResponse dec s) := by
  unfold parseAnalysisResponse
  cases hm : jsonMatch s with
  | none => exact lenientAnalysis_shape s
  | some sub =>
    show bugAnalysisShape (match dec sub with
      | some j => j
      | none => getDefaultAnalysis)
    rw [h sub hm]
    exact getDefaultAnalysis_shape

/-- C1 (witness): the amended theorem applied to the empty input string
and a decoder that always fails. -/
theorem interpret_nonstrict_shape_witness :
    bugAnalysisShape (parseAnalysisResponse (fun _ => none) "") :=
  interpret_nonstrict_shape (fun _ => none) "" (fun _ h => Option.noConfusion h)

/-- C2: whenever the input contains an opening brace with a later closing
brace and the substring from the first opening brace to the last closing
brace decodes, `interpret` returns exactly the decoded object, unmodified
and unvalidated. -/
theorem interpret_strict_passthrough (dec : String → Option Json) (s : String)
    (i j : Nat) (v : Json)
    (hi : firstIdxC s.data '\x7b' = some i)
    (hj : lastIdxC s.data '\x7d' = some j)
    (hij : i < j)
    (hdec : dec (String.mk ((s.data.drop i).take (j + 1 - i))) = some v) :
    parseAnalysisResponse dec s = v := by
  unfold parseAnalysisResponse jsonMatch
  rw [hi, hj]
  simp [hij, hdec]

/-- C2 (witness): the spec's strict-path test input, decoded by the
concrete decoder, is returned with exactly its field values. -/
theorem interpret_strict_passthrough_witness :
    parseAnalysisResponse jsonParseSimple
        "\x7b\"rootCause\":\"x\",\"severity\":\"high\",\"impact\":\"y\",\"fixes\":[],\"testingStrategy\":\"z\"\x7d"
      = .obj [("rootCause", .str "x"), ("severity", .str "high"), ("impact", .str "y"),
              ("fixes", .arr []), ("testingStrategy", .str "z")] :=
  interpret_strict_passthrough jsonParseSimple _ 0 80 _ rfl rfl (by decide) rfl

/-- C3 (counterexample): the claim that every returned analysis has at
least one fix fails on the strict path: an input whose brace-delimited
region decodes to an object with an empty `fixes` array is returned
as-is, fixes list empty. -/
theorem interpret_fixes_cex :
    jget (parseAnalysisResponse jsonParseSimple "\x7b\"fixes\":[]\x7d") "fixes"
      = some (.arr []) :=
  rfl

/-- C3 (amended): every analysis produced by the lenient or the default
path carries exactly one fix; the strict path returns the decoded object
as-is, whose fixes may be empty or absent. -/
theorem interpret_nonstrict_fixes (dec : String → Option Json) (s : String)
    (h : ∀ sub, jsonMatch s = some sub → dec sub = none) :
    ∃ fx, jget (parseAnalysisResponse dec s) "fixes" = some (.arr fx)
      ∧ fx.length = 1 := by
  unfold parseAnalysisResponse
  cases hm : jsonMatch s with
  | none => exact ⟨[primaryFix], rfl, rfl⟩
  | some sub =>
    show ∃ fx, jget (match dec sub with
        | some j => j
        | none => getDefaultAnalysis) "fixes" = some (.arr fx) ∧ fx.length = 1
    rw [h sub hm]
    exact ⟨_, rfl, rfl⟩

/-- C3 (witness): the amended theorem applied to a brace-free input. -/
theorem interpret_nonstrict_fixes_witness :
    ∃ fx, jget (parseAnalysisResponse jsonParseSimple "plain text") "fixes"
      = some (.arr fx) ∧ fx.length = 1 :=
  interpret_nonstrict_fixes jsonParseSimple "plain text"
    (fun _ h => Option.noConfusion h)

/-- C6: on the lenient fallback path the severity is the first of the four
keywords, in the fixed priority order critical, high, medium, low, that
occurs anywhere in the lowercased text, and `"medium"` when none occurs. -/
theorem extractSeverity_priority (text : String) :
    (hasSub (jsToLower text) "critical" = true → extractSeverity text = "critical")
    ∧ (hasSub (jsToLower text) "critical" = false →
       hasSub (jsToLower text) "high" = true → extractSeverity text = "high")
    ∧ (hasSub (jsToLower text) "critical" = false →
       hasSub (jsToLower text) "high" = false →
       hasSub (jsToLower text) "medium" = true → extractSeverity text = "medium")
    ∧ (hasSub (jsToLower text) "critical" = false →
       hasSub (jsToLower text) "high" = false →
       hasSub (jsToLower text) "medium" = false →
       hasSub (jsToLower text) "low" = true → extractSeverity text = "low")
    ∧ (hasSub (jsToLower text) "critical" = false →
       hasSub (jsToLower text) "high" = false →
       hasSub (jsToLower text) "medium" = false →
       hasSub (jsToLower text) "low" = false → extractSeverity text = "medium") := by
  refine ⟨fun h1 => ?_, fun h1 h2 => ?_, fun h1 h2 h3 => ?_,
          fun h1 h2 h3 h4 => ?_, fun h1 h2 h3 h4 => ?_⟩
  · simp [extractSeverity, severities, List.find?, h1, jsOr]
  · simp [extractSeverity, severities, List.find?, h1, h2, jsOr]
  · simp [extractSeverity, severities, List.find?, h1, h2, h3, jsOr]
  · simp [extractSeverity, severities, List.find?, h1, h2, h3, h4, jsOr]
  · simp [extractSeverity, severities, List.find?, h1, h2, h3, h4, jsOr]

/-- C6 (witness): the spec's lenient-path example text yields severity
`"high"`. -/
theorem extractSeverity_priority_witness :
    extractSeverity "Root cause: something broke\n\nImpact: minor\n\nThis is high severity."
      = "high" :=
  (extractSeverity_priority _).2.1 (by decide) (by decide)

/-- C7: whenever the model-completion call fails, `analyzeBug` returns the
fixed mock analysis; its `rootCause` text contains the
service-unavailability marker and differs from the `rootCause` of the
default analysis that the Response Interpreter returns on a hard parse
failure, so the two failure modes are distinguishable from the returned
value. -/
theorem analyzeBug_service_failure (complete : String → Except Unit String)
    (dec : String → Option Json) (pd : ProjectData) (bug : String)
    (h : complete (createAnalysisPrompt pd bug) = .error ()) :
    analyzeBug complete dec pd bug = mockAnalysis
    ∧ ∃ r d, jget mockAnalysis "rootCause" = some (.str r)
        ∧ jget getDefaultAnalysis "rootCause" = some (.str d)
        ∧ r ≠ d
        ∧ hasSub r "Unable to connect to AI service" = true := by
  refine ⟨?_, _, _, rfl, rfl, by decide, rfl⟩
  unfold analyzeBug
  rw [h]

/-- C7 (witness): the failure theorem applied to an always-failing
completion capability and a concrete project. -/
theorem analyzeBug_service_failure_witness :
    analyzeBug (fun _ => .error ()) jsonParseSimple
        ⟨"demo", "Generic", 0, 0, none, none⟩ ""
      = mockAnalysis
    ∧ ∃ r d, jget mockAnalysis "rootCause" = some (.str r)
        ∧ jget getDefaultAnalysis "rootCause" = some (.str d)
        ∧ r ≠ d
        ∧ hasSub r "Unable to connect to AI service" = true :=
  analyzeBug_service_failure (fun _ => .error ()) jsonParseSimple
    ⟨"demo", "Generic", 0, 0, none, none⟩ "" rfl

/-! ### Helper lemmas: ingestion fold invariants -/

/-- Membership in the language accumulator after one insertion. -/
theorem mem_addLang (acc : List String) (x l : String) :
    l ∈ addLang acc x ↔ l ∈ acc ∨ l = x := by
  unfold addLang
  by_cases hx : x ∈ acc
  · simp only [if_pos hx]
    constructor
    · exact Or.inl
    · rintro (h | rfl)
      · exact h
      · exact hx
  · simp [if_neg hx]

/-- One insertion preserves distinctness of the language accumulator. -/
theorem addLang_nodup (acc : List String) (x : String) (h : acc.Nodup) :
    (addLang acc x).Nodup := by
  unfold addLang
  by_cases hx : x ∈ acc
  · simpa [if_pos hx]
  · simp only [if_neg hx]
    rw [List.nodup_append]
    exact ⟨h, List.nodup_singleton _,
           fun a ha hb => hx (List.mem_singleton.mp hb ▸ ha)⟩

/-- The running total of lines stays the sum of the per-file line counts
of the processed files across the ingestion loop. -/
theorem ingest_totalLines_inv (rf : String → Option String)
    (ap : String → Option JsAst) (files : List UploadFile) (st : IngestState)
    (h : st.totalLines = (st.processed.map (fun f => f.lines)).sum) :
    (files.foldl (stepFile rf ap) st).totalLines
      = ((files.foldl (stepFile rf ap) st).processed.map (fun f => f.lines)).sum := by
  induction files generalizing st with
  | nil => simpa using h
  | cons f t ih =>
    simp only [List.foldl_cons]
    apply ih
    cases hr : rf f.path with
    | none => simpa [stepFile, hr] using h
    | some content => simp [stepFile, hr, h]

/-- The number of processed files grows by exactly the number of
successfully read inputs. -/
theorem ingest_count_inv (rf : String → Option String)
    (ap : String → Option JsAst) (files : List UploadFile) (st : IngestState) :
    (files.foldl (stepFile rf ap) st).processed.length
      = st.processed.length
        + (files.filter (fun f => (rf f.path).isSome)).length := by
  induction files generalizing st with
  | nil => simp
  | cons f t ih =>
    simp only [List.foldl_cons, List.filter_cons]
    cases hr : rf f.path with
    | none => simp [stepFile, hr, ih]
    | some content =>
      rw [ih]
      simp [stepFile, hr]
      omega

/-- Every file surviving the ingestion loop has a line count computed by
the newline split of its own content and a readable path. -/
theorem ingest_files_inv (rf : String → Option String)
    (ap : String → Option JsAst) (files : List UploadFile) (st : IngestState)
    (h : ∀ pf ∈ st.processed,
      pf.lines = countLines pf.content ∧ (rf pf.path).isSome = true) :
    ∀ pf ∈ (files.foldl (stepFile rf ap) st).processed,
      pf.lines = countLines pf.content ∧ (rf pf.path).isSome = true := by
  induction files generalizing st with
  | nil => simpa using h
  | cons f t ih =>
    simp only [List.foldl_cons]
    apply ih
    intro pf hpf
    cases hr : rf f.path with
    | none =>
      rw [show stepFile rf ap st f = st by simp [stepFile, hr]] at hpf
      exact h pf hpf
    | some content =>
      rw [show stepFile rf ap st f
          = { processed := st.processed ++
                [{ name := f.originalname
                   path := f.path
                   content := content
                   size := f.size
                   lines := countLines content
                   extension := extname f.originalname
                   language := detectLanguage (extname f.originalname)
                   analysis := analyzeFile ap content (extname f.originalname) }]
              totalLines := st.totalLines + countLines content
              languages := addLang st.languages
                (detectLanguage (extname f.originalname)) }
          by simp [stepFile, hr]] at hpf
      rcases List.mem_append.mp hpf with hold | hnew
      · exact h pf hold
      · rcases List.mem_singleton.mp hnew with rfl
        exact ⟨rfl, by simp [hr]⟩

/-- Membership characterisation of the language set across the loop. -/
theorem ingest_lang_mem (rf : String → Option String)
    (ap : String → Option JsAst) (files : List UploadFile) (st : IngestState)
    (l : String) :
    l ∈ (files.foldl (stepFile rf ap) st).languages
      ↔ l ∈ st.languages
        ∨ ∃ f ∈ files, (rf f.path).isSome = true
            ∧ detectLanguage (extname f.originalname) = l := by
  induction files generalizing st with
  | nil => simp
  | cons f t ih =>
    simp only [List.foldl_cons]
    rw [ih]
    have hsplit :
        (∃ g ∈ f :: t, (rf g.path).isSome = true
            ∧ detectLanguage (extname g.originalname) = l)
          ↔ ((rf f.path).isSome = true ∧ detectLanguage (extname f.originalname) = l)
            ∨ ∃ g ∈ t, (rf g.path).isSome = true
                ∧ detectLanguage (extname g.originalname) = l := by
      simp
    rw [hsplit]
    cases hr : rf f.path with
    | none =>
      rw [show stepFile rf ap st f = st by simp [stepFile, hr]]
      simp [hr]
    | some content =>
      rw [show (stepFile rf ap st f).languages
          = addLang st.languages (detectLanguage (extname f.originalname))
          by simp [stepFile, hr]]
      rw [mem_addLang]
      simp only [hr, Option.isSome_some, true_and]
      constructor
      · rintro ((hl | hl) | hnew)
        · exact Or.inl hl
        · exact Or.inr (Or.inl hl.symm)
        · exact Or.inr (Or.inr hnew)
      · rintro (hl | hd | hnew)
        · exact Or.inl (Or.inl hl)
        · exact Or.inl (Or.inr hd.symm)
        · exact Or.inr hnew

/-- The language set stays duplicate-free across the loop. -/
theorem ingest_lang_nodup (rf : String → Option String)
    (ap : String → Option JsAst) (files : List UploadFile) (st : IngestState)
    (h : st.languages.Nodup) :
    (files.foldl (stepFile rf ap) st).languages.Nodup := by
  induction files generalizing st with
  | nil => simpa using h
  | cons f t ih =>
    simp only [List.foldl_cons]
    apply ih
    cases hr : rf f.path with
    | none => simpa [stepFile, hr] using h
    | some content =>
      rw [show (stepFile rf ap st f).languages
          = addLang st.languages (detectLanguage (extname f.originalname))
          by simp [stepFile, hr]]
      exact addLang_nodup _ _ h

/-! ### Claim theorems: ingestion pipeline -/

/-- C4: for every batch of uploaded files, the snapshot's `totalLines` is
the sum of the per-file line counts of the files in the snapshot,
`totalFiles` is the number of successfully read files (a file whose read
fails is dropped without aborting the batch and the remaining files are
all retained), every retained file's line count is the number of segments
of the newline split of its content, and the empty content splits into
one segment. -/
theorem processUploadedFiles_totals (dec : String → Option Json)
    (rf : String → Option String) (ap : String → Option JsAst)
    (files : List UploadFile) :
    (processUploadedFiles dec rf ap files).totalLines
      = (((processUploadedFiles dec rf ap files).files.map (fun f => f.lines)).sum)
    ∧ (processUploadedFiles dec rf ap files).totalFiles
        = (files.filter (fun f => (rf f.path).isSome)).length
    ∧ (processUploadedFiles dec rf ap files).totalFiles
        = (processUploadedFiles dec rf ap files).files.length
    ∧ (∀ pf ∈ (processUploadedFiles dec rf ap files).files,
        pf.lines = countLines pf.content ∧ (rf pf.path).isSome = true)
    ∧ countLines "" = 1 := by
  refine ⟨?_, ?_, rfl, ?_, rfl⟩
  · exact ingest_totalLines_inv rf ap files ⟨[], 0, []⟩ rfl
  · simpa using ingest_count_inv rf ap files ⟨[], 0, []⟩
  · exact ingest_files_inv rf ap files ⟨[], 0, []⟩ (by intro pf hpf; cases hpf)

/-- C4 (witness): the totals theorem applied to a concrete batch of one
readable two-line file and one unreadable file. -/
theorem processUploadedFiles_totals_witness :
    (processUploadedFiles (fun _ => none)
        (fun p => if p = "f1" then some "a\nb" else none) (fun _ => none)
        [⟨"m.py", "f1", 5⟩, ⟨"bad.js", "nope", 1⟩]).totalLines
      = (((processUploadedFiles (fun _ => none)
          (fun p => if p = "f1" then some "a\nb" else none) (fun _ => none)
          [⟨"m.py", "f1", 5⟩, ⟨"bad.js", "nope", 1⟩]).files.map
            (fun f => f.lines)).sum)
    ∧ (processUploadedFiles (fun _ => none)
        (fun p => if p = "f1" then some "a\nb" else none) (fun _ => none)
        [⟨"m.py", "f1", 5⟩, ⟨"bad.js", "nope", 1⟩]).totalFiles
      = ([⟨"m.py", "f1", 5⟩, (⟨"bad.js", "nope", 1⟩ : UploadFile)].filter
          (fun f => ((fun p => if p = "f1" then some "a\nb" else none)
            f.path).isSome)).length :=
  ⟨(processUploadedFiles_totals (fun _ => none)
      (fun p => if p = "f1" then some "a\nb" else none) (fun _ => none)
      [⟨"m.py", "f1", 5⟩, ⟨"bad.js", "nope", 1⟩]).1,
   (processUploadedFiles_totals (fun _ => none)
      (fun p => if p = "f1" then some "a\nb" else none) (fun _ => none)
      [⟨"m.py", "f1", 5⟩, ⟨"bad.js", "nope", 1⟩]).2.1⟩

/-- C5 (counterexample): the claim that the snapshot's languages exclude
`"Unknown"` fails on the code: ingesting one readable file with an
unrecognised extension yields a languages list equal to `["Unknown"]`,
because the loop adds the detected language of every successfully read
file with no filtering. -/
theorem languages_unknown_cex :
    (processUploadedFiles (fun _ => none)
        (fun p => if p = "f1" then some "hello" else none) (fun _ => none)
        [⟨"Makefile", "f1", 5⟩]).languages = ["Unknown"] :=
  rfl

/-- C5 (amended): the snapshot's languages list is exactly the set of
distinct languages detected among the successfully read files — including
`"Unknown"` when a file's extension is unrecognised — in first-occurrence
order and without duplicates; it is empty when no file is read. -/
theorem processUploadedFiles_languages (dec : String → Option Json)
    (rf : String → Option String) (ap : String → Option JsAst)
    (files : List UploadFile) :
    (processUploadedFiles dec rf ap files).languages.Nodup
    ∧ ∀ l, l ∈ (processUploadedFiles dec rf ap files).languages
        ↔ ∃ f ∈ files, (rf f.path).isSome = true
            ∧ detectLanguage (extname f.originalname) = l := by
  constructor
  · exact ingest_lang_nodup rf ap files ⟨[], 0, []⟩ List.nodup_nil
  · intro l
    have h := ingest_lang_mem rf ap files ⟨[], 0, []⟩ l
    simp only [show (⟨[], 0, []⟩ : IngestState).languages = [] from rfl,
               List.not_mem_nil, false_or] at h
    exact h

/-- C5 (witness): the amended theorem applied to a concrete batch with one
readable Python file: `"Python"` is in the snapshot's languages list, and
the list has no duplicates. -/
theorem processUploadedFiles_languages_witness :
    (processUploadedFiles (fun _ => none)
        (fun p => if p = "f1" then some "a\nb" else none) (fun _ => none)
        [⟨"m.py", "f1", 5⟩]).languages.Nodup
    ∧ "Python" ∈ (processUploadedFiles (fun _ => none)
        (fun p => if p = "f1" then some "a\nb" else none) (fun _ => none)
        [⟨"m.py", "f1", 5⟩]).languages :=
  ⟨(processUploadedFiles_languages (fun _ => none)
      (fun p => if p = "f1" then some "a\nb" else none) (fun _ => none)
      [⟨"m.py", "f1", 5⟩]).1,
   ((processUploadedFiles_languages (fun _ => none)
      (fun p => if p = "f1" then some "a\nb" else none) (fun _ => none)
      [⟨"m.py", "f1", 5⟩]).2 "Python").mpr
     ⟨⟨"m.py", "f1", 5⟩, by simp, rfl, rfl⟩⟩

/-- A permutation of a list leaves `List.any` unchanged. -/
theorem any_perm {α : Type} (p : α → Bool) {l l' : List α} (h : l.Perm l') :
    l.any p = l'.any p := by
  induction h with
  | nil => rfl
  | cons x _ ih => simp [List.any_cons, ih]
  | swap x y l =>
    simp only [List.any_cons]
    cases p x <;> cases p y <;> simp
  | trans _ _ ih1 ih2 => rw [ih1, ih2]

/-- C8: project-type classification returns the first ecosystem in the
fixed priority order Node, Python, Java, Ruby, Go whose marker file name
is present, `"Generic"` when none is present, and the result is invariant
under reordering of the file list; in particular any list containing
`package.json` classifies as the Node ecosystem, whether or not
`requirements.txt` is also present. -/
theorem detectProjectType_priority (files : List ProcessedFile) :
    (hasFile files "package.json" = true →
      detectProjectType files = "Node.js/JavaScript")
    ∧ (hasFile files "package.json" = false →
       hasFile files "requirements.txt" = true →
       detectProjectType files = "Python")
    ∧ (hasFile files "package.json" = false →
       hasFile files "requirements.txt" = false →
       hasFile files "pom.xml" = true →
       detectProjectType files = "Java")
    ∧ (hasFile files "package.json" = false →
       hasFile files "requirements.txt" = false →
       hasFile files "pom.xml" = false →
       hasFile files "Gemfile" = true →
       detectProjectType files = "Ruby")
    ∧ (hasFile files "package.json" = false →
       hasFile files "requirements.txt" = false →
       hasFile files "pom.xml" = false →
       hasFile files "Gemfile" = false →
       hasFile files "go.mod" = true →
       detectProjectType files = "Go")
    ∧ (hasFile files "package.json" = false →
       hasFile files "requirements.txt" = false →
       hasFile files "pom.xml" = false →
       hasFile files "Gemfile" = false →
       hasFile files "go.mod" = false →
       detectProjectType files = "Generic")
    ∧ (∀ files', files.Perm files' →
        detectProjectType files = detectProjectType files') := by
  refine ⟨fun h1 => ?_, fun h1 h2 => ?_, fun h1 h2 h3 => ?_, fun h1 h2 h3 h4 => ?_,
          fun h1 h2 h3 h4 h5 => ?_, fun h1 h2 h3 h4 h5 => ?_, fun files' hp => ?_⟩
  · simp [detectProjectType, h1]
  · simp [detectProjectType, h1, h2]
  · simp [detectProjectType, h1, h2, h3]
  · simp [detectProjectType, h1, h2, h3, h4]
  · simp [detectProjectType, h1, h2, h3, h4, h5]
  · simp [detectProjectType, h1, h2, h3, h4, h5]
  · unfold detectProjectType hasFile
    rw [any_perm _ hp, any_perm _ hp, any_perm _ hp, any_perm _ hp, any_perm _ hp]

/-- C8 (witness): a concrete file list containing both `package.json` and
`requirements.txt` classifies as the Node ecosystem, in either order. -/
theorem detectProjectType_priority_witness :
    detectProjectType
        [⟨"package.json", "p1", "", 1, 1, ".json", "Unknown", emptySummary⟩,
         ⟨"requirements.txt", "p2", "", 1, 1, ".txt", "Unknown", emptySummary⟩]
      = "Node.js/JavaScript"
    ∧ detectProjectType
        [⟨"requirements.txt", "p2", "", 1, 1, ".txt", "Unknown", emptySummary⟩,
         ⟨"package.json", "p1", "", 1, 1, ".json", "Unknown", emptySummary⟩]
      = "Node.js/JavaScript" :=
  ⟨(detectProjectType_priority _).1 rfl, (detectProjectType_priority _).1 rfl⟩

/-- C9: the Static Analyzer returns the empty structural summary for every
extension outside the `.js`/`.jsx` family regardless of content, and an
internal parse failure on a supported extension also yields the empty
summary; the model is a total function, mirroring that the source never
lets an exception escape `analyzeFile`. -/
theorem analyzeFile_empty (ap : String → Option JsAst)
    (content extension : String) :
    (¬(extension = ".js" ∨ extension = ".jsx") →
      analyzeFile ap content extension = emptySummary)
    ∧ (ap content = none → analyzeFile ap content extension = emptySummary) := by
  constructor
  · intro h
    rw [not_or] at h
    simp [analyzeFile, h.1, h.2]
  · intro h
    unfold analyzeFile analyzeJavaScript
    rw [h]
    split <;> rfl

/-- C9 (witness): a Python extension with an always-failing parser yields
the empty summary via both conjuncts. -/
theorem analyzeFile_empty_witness :
    analyzeFile (fun _ => none) "def f(): pass" ".py" = emptySummary :=
  (analyzeFile_empty (fun _ => none) "def f(): pass" ".py").1 (by decide)

/-! ### Helper lemmas: object spread merging -/

/-- Replacing the value at one key by in-place map: that key then looks up
to the new value, provided it occurs. -/
theorem lookup_map_replace_self (ps : List (String × Json)) (k : String) (v : Json)
    (ha : ps.any (fun p => p.1 = k) = true) :
    (ps.map (fun p => if p.1 = k then (k, v) else p)).lookup k = some v := by
  induction ps with
  | nil => simp at ha
  | cons a t ih =>
    obtain ⟨a1, a2⟩ := a
    by_cases hk : a1 = k
    · simp only [List.map_cons, if_pos hk]
      exact List.lookup_cons_self
    · have ht : t.any (fun p => p.1 = k) = true := by
        simpa [List.any_cons, hk] using ha
      simp only [List.map_cons, if_neg hk, List.lookup_cons]
      rw [show (k == a1) = false by simpa using fun h : k = a1 => hk h.symm]
      exact ih ht

/-- Replacing the value at one key leaves every other key's lookup alone. -/
theorem lookup_map_replace_ne (ps : List (String × Json)) (k : String) (v : Json)
    (x : String) (hx : x ≠ k) :
    (ps.map (fun p => if p.1 = k then (k, v) else p)).lookup x = ps.lookup x := by
  induction ps with
  | nil => rfl
  | cons a t ih =>
    obtain ⟨a1, a2⟩ := a
    by_cases hk : a1 = k
    · simp only [List.map_cons, if_pos hk, List.lookup_cons]
      rw [show (x == k) = false by simpa using hx,
          show (x == a1) = false by simpa [hk] using hx]
      exact ih
    · simp only [List.map_cons, if_neg hk, List.lookup_cons]
      cases hxa : x == a1 with
      | true => rfl
      | false => exact ih

/-- Appending a pair with a fresh key leaves every other key's lookup alone. -/
theorem lookup_append_single_ne (ps : List (String × Json)) (k : String) (v : Json)
    (x : String) (hx : x ≠ k) :
    (ps ++ [(k, v)]).lookup x = ps.lookup x := by
  rw [List.lookup_append]
  rw [show ([(k, v)] : List (String × Json)).lookup x = none by
    simp [List.lookup_cons, show (x == k) = false by simpa using hx]]
  cases ps.lookup x <;> rfl

/-- Assigning a key makes it look up to the assigned value. -/
theorem lookup_setProp_self (ps : List (String × Json)) (k : String) (v : Json) :
    (setProp ps k v).lookup k = some v := by
  unfold setProp
  by_cases ha : ps.any (fun p => p.1 = k)
  · rw [if_pos ha]
    exact lookup_map_replace_self ps k v ha
  · rw [if_neg ha, List.lookup_append]
    have hnone : ps.lookup k = none := by
      rw [List.lookup_eq_none_iff]
      intro p hp
      simp only [bne_iff_ne, ne_eq]
      intro hkp
      apply ha
      rw [List.any_eq_true]
      exact ⟨p, hp, by simpa using hkp.symm⟩
    rw [hnone]
    simp [List.lookup_cons]

/-- Assigning one key leaves every other key's lookup unchanged. -/
theorem lookup_setProp_ne (ps : List (String × Json)) (k : String) (v : Json)
    (x : String) (hx : x ≠ k) : (setProp ps k v).lookup x = ps.lookup x := by
  unfold setProp
  by_cases ha : ps.any (fun p => p.1 = k)
  · rw [if_pos ha]
    exact lookup_map_replace_ne ps k v x hx
  · rw [if_neg ha]
    exact lookup_append_single_ne ps k v x hx

/-- Spreading entries none of which carry the key leaves its lookup alone. -/
theorem lookup_spreadInto_notin (l : List (String × Json)) (k : String) :
    k ∉ l.map Prod.fst → ∀ b, (spreadInto b l).lookup k = b.lookup k := by
  induction l with
  | nil => intro _ _; rfl
  | cons p t ih =>
    intro h b
    obtain ⟨p1, p2⟩ := p
    simp only [List.map_cons, List.mem_cons, not_or] at h
    rw [show spreadInto b ((p1, p2) :: t) = spreadInto (setProp b p1 p2) t from rfl]
    rw [ih h.2 _, lookup_setProp_ne _ _ _ _ h.1]

/-- Spreading entries that carry the key makes its lookup defined. -/
theorem lookup_spreadInto_isSome (l : List (String × Json)) (k : String) :
    k ∈ l.map Prod.fst → ∀ b, ((spreadInto b l).lookup k).isSome = true := by
  induction l with
  | nil => intro h; simp at h
  | cons p t ih =>
    intro h b
    obtain ⟨p1, p2⟩ := p
    rw [show spreadInto b ((p1, p2) :: t) = spreadInto (setProp b p1 p2) t from rfl]
    by_cases hk : k ∈ t.map Prod.fst
    · exact ih hk _
    · have h' : k = p1 ∨ ∃ x, (k, x) ∈ t := by simpa using h
      have hp1 : k = p1 := by
        rcases h' with h1 | ⟨x, h1⟩
        · exact h1
        · exact absurd (List.mem_map.mpr ⟨(k, x), h1, rfl⟩) hk
      rw [lookup_spreadInto_notin t k hk _]
      subst hp1
      rw [lookup_setProp_self]
      rfl

/-- With duplicate-free keys, spreading entries makes a carried key look
up to exactly its declared value. -/
theorem lookup_spreadInto_mem_nodup (l : List (String × Json)) (k : String) (v : Json) :
    (k, v) ∈ l → (l.map Prod.fst).Nodup →
    ∀ b, (spreadInto b l).lookup k = some v := by
  induction l with
  | nil => intro h; simp at h
  | cons p t ih =>
    intro hmem hnd b
    obtain ⟨p1, p2⟩ := p
    rw [show spreadInto b ((p1, p2) :: t) = spreadInto (setProp b p1 p2) t from rfl]
    rw [List.map_cons, List.nodup_cons] at hnd
    rcases List.mem_cons.mp hmem with heq | hmem'
    · obtain ⟨rfl, rfl⟩ := Prod.mk.injEq .. ▸ heq
      rw [lookup_spreadInto_notin t k hnd.1 _, lookup_setProp_self]
    · exact ih hmem' hnd.2 _

/-- A fold of the dependency-extraction step over files none of which is a
manifest leaves the accumulator unchanged. -/
theorem extractDeps_no_pkg (dec : String → Option Json) (fs : List ProcessedFile) :
    (∀ g ∈ fs, g.name ≠ "package.json") →
    ∀ acc, fs.foldl (depStep dec) acc = acc := by
  induction fs with
  | nil => intro _ _; rfl
  | cons f t ih =>
    intro h acc
    simp only [List.foldl_cons]
    rw [show depStep dec acc f = acc by
      simp [depStep, h f (List.mem_cons_self f t)]]
    exact ih (fun g hg => h g (List.mem_cons_of_mem f hg)) acc

/-- C10: when the last `package.json` among the snapshot's files has
content that decodes to a manifest with object-valued `dependencies` and
`devDependencies` fields, the snapshot's npm dependency mapping is
defined, contains every package name declared in either field, and maps
every name declared in `devDependencies` (assumed duplicate-free, as
decoded manifests are) to the `devDependencies` version — so on a name
declared in both fields the `devDependencies` constraint wins. -/
theorem processUploadedFiles_dependencies (dec : String → Option Json)
    (rf : String → Option String) (ap : String → Option JsAst)
    (files : List UploadFile) (pre post : List ProcessedFile)
    (pkg : ProcessedFile) (j : Json) (dk dv : List (String × Json))
    (hsplit : (processUploadedFiles dec rf ap files).files = pre ++ pkg :: post)
    (hname : pkg.name = "package.json")
    (hpost : ∀ g ∈ post, g.name ≠ "package.json")
    (hdec : dec pkg.content = some j)
    (hdeps : jget j "dependencies" = some (.obj dk))
    (hdev : jget j "devDependencies" = some (.obj dv))
    (hnodup : (dv.map Prod.fst).Nodup) :
    ∃ npm, (processUploadedFiles dec rf ap files).dependencies = some npm
      ∧ (∀ k, (k ∈ dk.map Prod.fst ∨ k ∈ dv.map Prod.fst) →
          (npm.lookup k).isSome = true)
      ∧ (∀ k v, (k, v) ∈ dv → npm.lookup k = some v) := by
  refine ⟨spreadInto (spreadInto [] dk) dv, ?_, ?_, ?_⟩
  · have hdep : (processUploadedFiles dec rf ap files).dependencies
        = extractDependencies dec (pre ++ pkg :: post) := by
      rw [← hsplit]
      rfl
    rw [hdep]
    unfold extractDependencies
    rw [List.foldl_append, List.foldl_cons]
    rw [show depStep dec (pre.foldl (depStep dec) none) pkg
        = some (spreadInto (spreadInto [] dk) dv) by
      simp [depStep, hname, hdec, jgetOrNull, hdeps, hdev, jsSpread]]
    exact extractDeps_no_pkg dec post hpost _
  · intro k hk
    by_cases hkv : k ∈ dv.map Prod.fst
    · exact lookup_spreadInto_isSome dv k hkv _
    · rcases hk with hk | hk
      · rw [lookup_spreadInto_notin dv k hkv _]
        exact lookup_spreadInto_isSome dk k hk _
      · exact absurd hk hkv
  · intro k v hv
    exact lookup_spreadInto_mem_nodup dv k v hv hnodup _

/-- C10 (witness): the dependency theorem applied to one readable
`package.json` declaring `a` in both fields and `b` only in
`devDependencies`. -/
theorem processUploadedFiles_dependencies_witness :
    ∃ npm, (processUploadedFiles jsonParseSimple
        (fun p => if p = "f1"
          then some "\x7b\"dependencies\":\x7b\"a\":\"1\"\x7d,\"devDependencies\":\x7b\"a\":\"2\",\"b\":\"3\"\x7d\x7d"
          else none)
        (fun _ => none) [⟨"package.json", "f1", 5⟩]).dependencies = some npm
      ∧ (∀ k, (k ∈ ([("a", Json.str "1")].map Prod.fst)
            ∨ k ∈ ([("a", Json.str "2"), ("b", Json.str "3")].map Prod.fst)) →
          (npm.lookup k).isSome = true)
      ∧ (∀ k v, (k, v) ∈ [("a", Json.str "2"), ("b", Json.str "3")] →
          npm.lookup k = some v) :=
  processUploadedFiles_dependencies jsonParseSimple
    (fun p => if p = "f1"
      then some "\x7b\"dependencies\":\x7b\"a\":\"1\"\x7d,\"devDependencies\":\x7b\"a\":\"2\",\"b\":\"3\"\x7d\x7d"
      else none)
    (fun _ => none) [⟨"package.json", "f1", 5⟩] [] []
    { name := "package.json"
      path := "f1"
      content := "\x7b\"dependencies\":\x7b\"a\":\"1\"\x7d,\"devDependencies\":\x7b\"a\":\"2\",\"b\":\"3\"\x7d\x7d"
      size := 5
      lines := 1
      extension := ".json"
      language := "Unknown"
      analysis := emptySummary }
    (.obj [("dependencies", .obj [("a", .str "1")]),
           ("devDependencies", .obj [("a", .str "2"), ("b", .str "3")])])
    [("a", .str "1")] [("a", .str "2"), ("b", .str "3")]
    rfl rfl (by simp) rfl rfl rfl (by decide)

end DebugFlow
